import Mathlib

/-!
Shallow embedding of `src/mcp.mjs` (mcp-pandoc-tools): an HTTP gateway that
proxies document conversion to an external pandoc backend, stores the
resulting bytes in `/tmp/exports` together with an in-memory `Map` from
file id to record, serves them on `GET /download/:id`, and evicts entries
older than 15 minutes on a periodic cleanup timer.

Modelling conventions:
- JavaScript `Map` and the filesystem are association lists
  (`List (String × _)`) with `Map.get`/`Map.set`/`writeFileSync` as
  `alistGet`/`alistSet`; the real `Map` has unique keys, which theorems
  carry as a `keysNodup` hypothesis where needed.
- Bytes are `List Nat`.
- JavaScript values that may be non-strings (fields of a parsed JSON body)
  are `Option String` (`none` stands for any non-string value).
- Nondeterminism (the random file id from `fileId`, `Date.now()`, the
  backend response of the single `fetch`) is an `Oracle` record supplied
  to each step.
- Side effects other than state changes (the outbound backend call, file
  reads/writes/unlinks) are logged in an explicit `Effect` list, so that
  "the backend is never called" and "no filesystem read happens" are
  statable.
-/

/-- Values set from the environment once at startup (mcp.mjs lines 10-13). -/
structure Config where
  PANDOC_BASE : String
  PANDOC_API_KEY : String
  PUBLIC_BASE_URL : String
deriving DecidableEq, Repr

/-- One backend response, as observed through `fetch` in `doExport`:
`ok`/`status` from the response object, `bodyText` as read by `resp.text()`
on failure, `bytes` as read by `resp.arrayBuffer()` on success. -/
structure BackendResp where
  ok : Bool
  status : Nat
  bodyText : String
  bytes : List Nat
deriving DecidableEq, Repr

/-- The nondeterministic inputs of one invocation: `rawId` is the 16-char
base64url hash produced by `fileId` (crypto randomness), `now` the value of
`Date.now()` at `files.set` time, `resp` the backend response. -/
structure Oracle where
  resp : BackendResp
  rawId : String
  now : Nat
deriving DecidableEq, Repr

/-- A value of the in-memory `files` map: `files.set(fname, \x7bpath, mime, t\x7d)`. -/
structure FileRec where
  path : String
  mime : String
  t : Nat
deriving DecidableEq, Repr

/-- The mutable state of the process: the `files` map (id to record) and the
filesystem under the scratch directory (path to bytes). -/
structure ServerState where
  files : List (String × FileRec)
  fs : List (String × List Nat)
deriving DecidableEq, Repr

/-- Association-list lookup, the model of `Map.get` and of reading a file. -/
def alistGet {α : Type} : List (String × α) → String → Option α
  | [], _ => none
  | (k, v) :: rest, k2 => if k = k2 then some v else alistGet rest k2

/-- Association-list update-or-append, the model of `Map.set` and of
`writeFileSync` (both overwrite an existing key). -/
def alistSet {α : Type} : List (String × α) → String → α → List (String × α)
  | [], k, v => [(k, v)]
  | (k1, v1) :: rest, k, v =>
    if k1 = k then (k, v) :: rest else (k1, v1) :: alistSet rest k v

/-- Keys of an association list are pairwise distinct: the invariant a real
`Map` maintains by construction. -/
def keysNodup {α : Type} (l : List (String × α)) : Prop :=
  (l.map Prod.fst).Nodup

/-- Arguments handed to `doExport`: the three fields it destructures. -/
structure ExportArgs where
  input_format : Option String
  output_format : Option String
  content : Option String
deriving DecidableEq, Repr

/-- Model of `["a","b"].includes(v)` for a JS value `v` that may not be a
string: a non-string is never a member of a string list. -/
def jsIncludes (l : List String) (v : Option String) : Bool :=
  match v with
  | some s => l.contains s
  | none => false

/-- Model of the check `typeof content === "string" && content.length > 0`
(negation of the guard on mcp.mjs line 60). -/
def isNonEmptyString (v : Option String) : Bool :=
  match v with
  | some s => !s.isEmpty
  | none => false

/-- The failures `doExport` can throw (its four `throw new Error` sites). -/
inductive ExportErr where
  | badInput
  | badOutput
  | badContent
  | upstream (status : Nat) (text : String)
deriving DecidableEq, Repr

/-- True exactly on the three local validation failures. -/
def ExportErr.isValidation : ExportErr → Bool
  | .badInput => true
  | .badOutput => true
  | .badContent => true
  | .upstream _ _ => false

/-- The message of the `Error` thrown at each failure site of `doExport`. -/
def errMsg : ExportErr → String
  | .badInput => "input_format must be \x27markdown\x27 or \x27html\x27"
  | .badOutput => "output_format must be \x27pdf\x27 or \x27docx\x27"
  | .badContent => "content must be a non-empty string"
  | .upstream status text => "pandoc error " ++ toString status ++ ": " ++ text

/-- Observable side effects of handling one request. -/
inductive Effect where
  | backendCall (args : ExportArgs)
  | fsWrite (p : String)
  | fsRead (p : String)
  | fsUnlink (p : String)
deriving DecidableEq, Repr

/-- The scratch directory `TMP_DIR` (mcp.mjs line 19). -/
def TMP_DIR : String := "/tmp/exports"

/-- The OOXML word-processing MIME type used for docx output. -/
def docxMime : String :=
  "application/vnd.openxmlformats-officedocument.wordprocessingml.document"

/-- The PDF MIME type. -/
def pdfMime : String := "application/pdf"

/-- Retention window of the cleanup timer: `15 * 60 * 1000` ms. -/
def RETENTION_MS : Nat := 15 * 60 * 1000

/-- Period of the cleanup timer: `5 * 60 * 1000` ms. -/
def CLEANUP_PERIOD_MS : Nat := 5 * 60 * 1000

/-- Model of `fileId(ext)`: the random 16-char id comes from the oracle and
the extension is appended, giving the returned string. -/
def fileId (o : Oracle) (ext : String) : String :=
  o.rawId ++ "." ++ ext

/-- The extension picked on mcp.mjs line 79:
`output_format === "docx" ? "docx" : "pdf"`. -/
def exportExt (args : ExportArgs) : String :=
  if args.output_format = some "docx" then "docx" else "pdf"

/-- The generated file name `fname` of a successful export. -/
def exportFname (o : Oracle) (args : ExportArgs) : String :=
  fileId o (exportExt args)

/-- The backing path `fpath = path.join(TMP_DIR, fname)`. -/
def exportFpath (o : Oracle) (args : ExportArgs) : String :=
  TMP_DIR ++ "/" ++ exportFname o args

/-- The MIME type recorded for a successful export (mcp.mjs lines 84-86). -/
def exportMime (args : ExportArgs) : String :=
  if args.output_format = some "docx" then docxMime else pdfMime

/-- The record inserted into `files` on a successful export. -/
def exportRec (o : Oracle) (args : ExportArgs) : FileRec :=
  { path := exportFpath o args, mime := exportMime args, t := o.now }

/-- State after `fs.writeFileSync(fpath, buf)` (mcp.mjs line 82) and before
the `files.set` of line 88. -/
def exportStateAfterWrite (o : Oracle) (args : ExportArgs) (s : ServerState) :
    ServerState :=
  { s with fs := alistSet s.fs (exportFpath o args) o.resp.bytes }

/-- State after `files.set(fname, ...)` (mcp.mjs line 88): the final state of
a successful export. -/
def exportFinalState (o : Oracle) (args : ExportArgs) (s : ServerState) :
    ServerState :=
  { files := alistSet s.files (exportFname o args) (exportRec o args),
    fs := (exportStateAfterWrite o args s).fs }

/-- The link returned on mcp.mjs line 89. -/
def exportLink (cfg : Config) (o : Oracle) (args : ExportArgs) : String :=
  cfg.PUBLIC_BASE_URL ++ "/download/" ++ exportFname o args

/-- Embedding of `doExport`: validation in source order, then the single
backend call, then file write, then index insert, then the link. Returns
the thrown error or the link, the resulting state, and the effect log. -/
def doExport (cfg : Config) (o : Oracle) (args : ExportArgs) (s : ServerState) :
    Except ExportErr String × ServerState × List Effect :=
  if !jsIncludes ["markdown", "html"] args.input_format then
    (.error .badInput, s, [])
  else if !jsIncludes ["pdf", "docx"] args.output_format then
    (.error .badOutput, s, [])
  else if !isNonEmptyString args.content then
    (.error .badContent, s, [])
  else if !o.resp.ok then
    (.error (.upstream o.resp.status o.resp.bodyText), s, [.backendCall args])
  else
    (.ok (exportLink cfg o args), exportFinalState o args s,
      [.backendCall args, .fsWrite (exportFpath o args)])

/-- One run of the cleanup timer (mcp.mjs lines 93-98) at time `now`: every
entry with `now - t > RETENTION_MS` is removed from the index and its
backing path unlinked. -/
def cleanup (now : Nat) (s : ServerState) : ServerState :=
  { files := s.files.filter (fun kv => !decide (now - kv.2.t > RETENTION_MS)),
    fs := s.fs.filter (fun pf =>
      !(s.files.any (fun kv =>
        decide (now - kv.2.t > RETENTION_MS) && decide (kv.2.path = pf.1)))) }

/-- Model of JS `str.split(sep)` for a one-character separator, over the
character list of the string. -/
def splitChar (sep : Char) : List Char → List (List Char)
  | [] => [[]]
  | c :: cs =>
    match splitChar sep cs with
    | [] => [[c]]
    | g :: gs => if c = sep then [] :: g :: gs else (c :: g) :: gs

/-- Model of `pathname.split("/").pop()` (mcp.mjs line 184). -/
def lastSegment (s : String) : String :=
  String.mk ((splitChar '/' s.data).getLastD [])

/-- The requests the `createServer` handler distinguishes (mcp.mjs 129-195):
health check, SSE channel, tool invocation (`name` may be a non-string),
direct export, download (carrying the full pathname), and anything else. -/
inductive Request where
  | healthz
  | sse
  | invoke (name : Option String) (args : ExportArgs)
  | exportDirect (args : ExportArgs)
  | download (pathname : String)
  | other
deriving DecidableEq, Repr

/-- The responses the handler can produce: `ok(...)` bodies are split by
shape, `bad(res, code, msg)` is `errJson` (a JSON body with an `error`
field), and a download success streams the file at the recorded path. -/
inductive HttpResponse where
  | healthOk
  | sseStream
  | toolOk (text : String)
  | exportOk (link : String)
  | errJson (status : Nat) (msg : String)
  | fileOk (mime : String) (filename : String) (bytes : Option (List Nat))
deriving DecidableEq, Repr

/-- The arguments the `/invoke` branch passes to `doExport`: `input_format`
and `content` from the parsed body, `output_format` fixed by the tool name
(mcp.mjs lines 161 and 165). -/
def invokeArgs (outputFormat : String) (args : ExportArgs) : ExportArgs :=
  { input_format := args.input_format,
    output_format := some outputFormat,
    content := args.content }

/-- Embedding of the `createServer` request handler: routing, the two
registered tools, the direct export path, the download path, the 404
fallthrough, and the catch-all that maps any thrown error to
`bad(res, 500, message)`. -/
def handle (cfg : Config) (o : Oracle) (s : ServerState) (req : Request) :
    HttpResponse × ServerState × List Effect :=
  match req with
  | .healthz => (.healthOk, s, [])
  | .sse => (.sseStream, s, [])
  | .invoke name args =>
    if name = some "convert_to_pdf" then
      match doExport cfg o (invokeArgs "pdf" args) s with
      | (.ok link, s1, effs) => (.toolOk ("PDF ready: " ++ link), s1, effs)
      | (.error e, s1, effs) => (.errJson 500 (errMsg e), s1, effs)
    else if name = some "convert_to_docx" then
      match doExport cfg o (invokeArgs "docx" args) s with
      | (.ok link, s1, effs) => (.toolOk ("DOCX ready: " ++ link), s1, effs)
      | (.error e, s1, effs) => (.errJson 500 (errMsg e), s1, effs)
    else
      (.errJson 404 "unknown tool", s, [])
  | .exportDirect args =>
    match doExport cfg o args s with
    | (.ok link, s1, effs) => (.exportOk link, s1, effs)
    | (.error e, s1, effs) => (.errJson 500 (errMsg e), s1, effs)
  | .download pathname =>
    match alistGet s.files (lastSegment pathname) with
    | none => (.errJson 404 "not found", s, [])
    | some r =>
      (.fileOk r.mime (lastSegment pathname) (alistGet s.fs r.path), s,
        [.fsRead r.path])
  | .other => (.errJson 404 "not found", s, [])

/-! Helper lemmas about the association-list model. -/

theorem alistGet_set_self {α : Type} (l : List (String × α)) (k : String) (v : α) :
    alistGet (alistSet l k v) k = some v := by
  induction l with
  | nil => simp [alistSet, alistGet]
  | cons kv rest ih =>
    obtain ⟨k1, v1⟩ := kv
    by_cases h : k1 = k
    · simp [alistSet, h, alistGet]
    · simp [alistSet, h, alistGet, ih]

theorem alistGet_set_ne {α : Type} (l : List (String × α)) (k k2 : String) (v : α)
    (h : k ≠ k2) : alistGet (alistSet l k v) k2 = alistGet l k2 := by
  induction l with
  | nil => simp [alistSet, alistGet, h]
  | cons kv rest ih =>
    obtain ⟨k1, v1⟩ := kv
    by_cases h1 : k1 = k
    · subst h1
      simp [alistSet, alistGet, h, Ne.symm h]
    · simp [alistSet, h1, alistGet, ih]

theorem alistGet_eq_none_of_not_mem {α : Type} (l : List (String × α)) (k : String)
    (h : k ∉ l.map Prod.fst) : alistGet l k = none := by
  induction l with
  | nil => rfl
  | cons kv rest ih =>
    obtain ⟨k1, v1⟩ := kv
    simp only [List.map_cons, List.mem_cons] at h
    push_neg at h
    have hne : ¬ k1 = k := fun e => h.1 (Eq.symm e)
    simp [alistGet, hne, ih h.2]

theorem alistGet_filter_of_none {α : Type} (l : List (String × α))
    (p : String × α → Bool) (k : String) (h : alistGet l k = none) :
    alistGet (l.filter p) k = none := by
  induction l with
  | nil => rfl
  | cons kv rest ih =>
    obtain ⟨k1, v1⟩ := kv
    by_cases hk : k1 = k
    · simp [alistGet, hk] at h
    · simp only [alistGet, if_neg hk] at h
      by_cases hp : p (k1, v1) <;> simp [List.filter, hp, alistGet, hk, ih h]

theorem alistGet_filter_pos {α : Type} (l : List (String × α))
    (p : String × α → Bool) (k : String) (v : α)
    (h : alistGet l k = some v) (hp : p (k, v) = true) :
    alistGet (l.filter p) k = some v := by
  induction l with
  | nil => simp [alistGet] at h
  | cons kv rest ih =>
    obtain ⟨k1, v1⟩ := kv
    by_cases hk : k1 = k
    · subst hk
      have hv : v1 = v := by simpa [alistGet] using h
      subst hv
      simp [List.filter, hp, alistGet]
    · simp only [alistGet, if_neg hk] at h
      by_cases hpv : p (k1, v1) <;> simp [List.filter, hpv, alistGet, hk, ih h]

theorem alistGet_filter_neg {α : Type} (l : List (String × α))
    (p : String × α → Bool) (k : String) (v : α) (hnd : keysNodup l)
    (h : alistGet l k = some v) (hp : p (k, v) = false) :
    alistGet (l.filter p) k = none := by
  induction l with
  | nil => simp [alistGet] at h
  | cons kv rest ih =>
    obtain ⟨k1, v1⟩ := kv
    have hpair := List.nodup_cons.mp
      (show (k1 :: rest.map Prod.fst).Nodup from hnd)
    have hnd1 : k1 ∉ rest.map Prod.fst := hpair.1
    have hnd2 : keysNodup rest := hpair.2
    by_cases hk : k1 = k
    · subst hk
      have hv : v1 = v := by simpa [alistGet] using h
      subst hv
      have hrest : alistGet rest k1 = none :=
        alistGet_eq_none_of_not_mem rest k1 hnd1
      simp [List.filter, hp, alistGet_filter_of_none rest p k1 hrest]
    · simp only [alistGet, if_neg hk] at h
      by_cases hpv : p (k1, v1) <;>
        simp [List.filter, hpv, alistGet, hk, ih hnd2 h]

theorem alistGet_filter_key {α : Type} (l : List (String × α))
    (p : String × α → Bool) (k : String) (h : ∀ v, p (k, v) = false) :
    alistGet (l.filter p) k = none := by
  induction l with
  | nil => rfl
  | cons kv rest ih =>
    obtain ⟨k1, v1⟩ := kv
    by_cases hk : k1 = k
    · subst hk
      simp [List.filter, h v1, ih]
    · by_cases hpv : p (k1, v1) <;> simp [List.filter, hpv, alistGet, hk, ih]

theorem mem_keys_alistSet {α : Type} (l : List (String × α)) (k : String) (v : α)
    (k2 : String) :
    k2 ∈ (alistSet l k v).map Prod.fst ↔ (k2 = k ∨ k2 ∈ l.map Prod.fst) := by
  induction l with
  | nil => simp [alistSet]
  | cons kv rest ih =>
    obtain ⟨k1, v1⟩ := kv
    by_cases hk : k1 = k
    · subst hk
      simp [alistSet]
    · simp [alistSet, hk, ih]
      tauto

theorem keysNodup_alistSet {α : Type} (l : List (String × α)) (k : String) (v : α)
    (hnd : keysNodup l) : keysNodup (alistSet l k v) := by
  induction l with
  | nil => simp [alistSet, keysNodup]
  | cons kv rest ih =>
    obtain ⟨k1, v1⟩ := kv
    have hpair := List.nodup_cons.mp
      (show (k1 :: rest.map Prod.fst).Nodup from hnd)
    have hnd1 : k1 ∉ rest.map Prod.fst := hpair.1
    have hnd2 : keysNodup rest := hpair.2
    by_cases hk : k1 = k
    · subst hk
      simpa [alistSet, keysNodup] using hnd
    · have hmem : k1 ∉ (alistSet rest k v).map Prod.fst := by
        intro hm
        rcases (mem_keys_alistSet rest k v k1).mp hm with h | h
        · exact hk h
        · exact hnd1 h
      have : keysNodup (alistSet rest k v) := ih hnd2
      simpa [alistSet, hk, keysNodup] using List.nodup_cons.mpr ⟨hmem, this⟩

/-! Helper lemmas about the path-segment split. -/

theorem splitChar_ne_nil (sep : Char) (l : List Char) : splitChar sep l ≠ [] := by
  cases l with
  | nil => simp [splitChar]
  | cons c cs =>
    simp only [splitChar]
    cases h : splitChar sep cs with
    | nil => simp
    | cons g gs => by_cases hc : c = sep <;> simp [hc]

theorem splitChar_of_not_mem (sep : Char) (l : List Char) (h : sep ∉ l) :
    splitChar sep l = [l] := by
  induction l with
  | nil => rfl
  | cons c cs ih =>
    have hc : ¬ c = sep := fun e => h (e ▸ List.mem_cons_self c cs)
    have hcs : sep ∉ cs := fun m => h (List.mem_cons_of_mem c m)
    simp [splitChar, ih hcs, hc]

theorem splitChar_append (sep : Char) (a b : List Char) :
    splitChar sep (a ++ sep :: b) = splitChar sep a ++ splitChar sep b := by
  induction a with
  | nil =>
    cases h : splitChar sep b with
    | nil => exact absurd h (splitChar_ne_nil sep b)
    | cons g gs => simp [splitChar, h]
  | cons c a ih =>
    cases h : splitChar sep a with
    | nil => exact absurd h (splitChar_ne_nil sep a)
    | cons g gs =>
      have hmid : splitChar sep (a ++ sep :: b) = g :: (gs ++ splitChar sep b) := by
        rw [ih, h]
        simp
      by_cases hc : c = sep <;>
        simp [splitChar, hmid, h, hc]

theorem lastSegment_concat (pre fname : String) (h : '/' ∉ fname.data) :
    lastSegment (pre ++ "/" ++ fname) = fname := by
  have hd : (pre ++ "/" ++ fname).data = pre.data ++ '/' :: fname.data := by
    rw [String.data_append, String.data_append]
    simp [List.append_assoc]
  rw [lastSegment, hd, splitChar_append, splitChar_of_not_mem _ _ h,
    List.getLastD_concat]

/-! Concrete fixtures used by witnesses and counterexamples. -/

/-- A configuration with both base addresses set. -/
def cfg0 : Config :=
  { PANDOC_BASE := "http://pandoc.internal",
    PANDOC_API_KEY := "",
    PUBLIC_BASE_URL := "http://tools.example" }

/-- A successful 3-byte backend response, a slash-free random id, a clock. -/
def o0 : Oracle :=
  { resp := { ok := true, status := 200, bodyText := "", bytes := [37, 80, 68] },
    rawId := "abcd0123efgh4567",
    now := 1000 }

/-- The empty store. -/
def s0 : ServerState := { files := [], fs := [] }

/-- Valid arguments: markdown in, pdf out, non-empty content. -/
def argsOk : ExportArgs :=
  { input_format := some "markdown",
    output_format := some "pdf",
    content := some "# Hi" }

/-- A store holding one artifact, for download witnesses. -/
def s1 : ServerState :=
  { files := [("id1.pdf",
      { path := "/tmp/exports/id1.pdf", mime := "application/pdf", t := 5 })],
    fs := [("/tmp/exports/id1.pdf", [1, 2, 3])] }

/-! Claim theorems. -/

/-- C2: an invocation whose `input_format` is not "markdown"/"html", or whose
`output_format` is not "pdf"/"docx", or whose `content` is not a non-empty
string, fails with one of the three local validation errors; the state is
unchanged (no artifact is added) and the effect log is empty (the backend
is never called). Shown for `doExport` and for the `/export` route. -/
theorem C2_validation_fails_fast (cfg : Config) (o : Oracle) (s : ServerState)
    (args : ExportArgs)
    (h : jsIncludes ["markdown", "html"] args.input_format = false ∨
         jsIncludes ["pdf", "docx"] args.output_format = false ∨
         isNonEmptyString args.content = false) :
    ∃ e : ExportErr, e.isValidation = true ∧
      doExport cfg o args s = (.error e, s, []) ∧
      handle cfg o s (.exportDirect args) = (.errJson 500 (errMsg e), s, []) := by
  by_cases h1 : jsIncludes ["markdown", "html"] args.input_format = true
  · by_cases h2 : jsIncludes ["pdf", "docx"] args.output_format = true
    · by_cases h3 : isNonEmptyString args.content = true
      · rcases h with h | h | h
        · rw [h1] at h; exact absurd h (by simp)
        · rw [h2] at h; exact absurd h (by simp)
        · rw [h3] at h; exact absurd h (by simp)
      · simp only [Bool.not_eq_true] at h3
        have hd : doExport cfg o args s = (.error .badContent, s, []) := by
          simp [doExport, h1, h2, h3]
        exact ⟨.badContent, rfl, hd, by simp [handle, hd]⟩
    · simp only [Bool.not_eq_true] at h2
      have hd : doExport cfg o args s = (.error .badOutput, s, []) := by
        simp [doExport, h1, h2]
      exact ⟨.badOutput, rfl, hd, by simp [handle, hd]⟩
  · simp only [Bool.not_eq_true] at h1
    have hd : doExport cfg o args s = (.error .badInput, s, []) := by
      simp [doExport, h1]
    exact ⟨.badInput, rfl, hd, by simp [handle, hd]⟩

/-- C2 witness: a request with `input_format = "latex"` is rejected by the
local validation with an unchanged store and no effects. -/
theorem C2_validation_fails_fast_witness :
    ∃ e : ExportErr, e.isValidation = true ∧
      doExport cfg0 o0
        { input_format := some "latex", output_format := some "pdf",
          content := some "x" } s0 = (.error e, s0, []) ∧
      handle cfg0 o0 s0 (.exportDirect
        { input_format := some "latex", output_format := some "pdf",
          content := some "x" }) = (.errJson 500 (errMsg e), s0, []) :=
  C2_validation_fails_fast cfg0 o0 s0 _ (Or.inl (by decide))

/-- C5: a `POST /invoke` whose `name` is neither registered tool answers
HTTP 404 with body `\x7b"error": "unknown tool"\x7d`, leaves the store
unchanged, and produces no effects (the backend is never called and
no artifact is created). -/
theorem C5_unknown_tool_404 (cfg : Config) (o : Oracle) (s : ServerState)
    (name : Option String) (args : ExportArgs)
    (h1 : name ≠ some "convert_to_pdf") (h2 : name ≠ some "convert_to_docx") :
    handle cfg o s (.invoke name args) = (.errJson 404 "unknown tool", s, []) := by
  simp [handle, h1, h2]

/-- C5 witness: invoking the unregistered name "convert_to_latex". -/
theorem C5_unknown_tool_404_witness :
    handle cfg0 o0 s1 (.invoke (some "convert_to_latex") argsOk) =
      (.errJson 404 "unknown tool", s1, []) :=
  C5_unknown_tool_404 cfg0 o0 s1 (some "convert_to_latex") argsOk
    (by decide) (by decide)

/-- C8: `GET /download/:id` never mutates the store: whatever the pathname,
the state after handling equals the state before, the effect log contains
no write and no unlink, and repeating the same download yields the same
response again. -/
theorem C8_download_is_pure (cfg : Config) (o : Oracle) (s : ServerState)
    (p : String) :
    (handle cfg o s (.download p)).2.1 = s ∧
    (∀ e ∈ (handle cfg o s (.download p)).2.2,
      ∀ q, e ≠ Effect.fsWrite q ∧ e ≠ Effect.fsUnlink q) ∧
    handle cfg o (handle cfg o s (.download p)).2.1 (.download p) =
      handle cfg o s (.download p) := by
  cases h : alistGet s.files (lastSegment p) with
  | none => simp [handle, h]
  | some r => simp [handle, h]

/-- With an `output_format` accepted by the membership test, `doExport` can
never fail through its output-format validation branch. -/
theorem doExport_ne_badOutput (cfg : Config) (o : Oracle) (args : ExportArgs)
    (s : ServerState)
    (hout : jsIncludes ["pdf", "docx"] args.output_format = true) :
    (doExport cfg o args s).1 ≠ .error .badOutput := by
  unfold doExport
  split
  · simp
  · simp only [hout, Bool.not_true]
    split
    · simp_all
    · split
      · simp
      · split <;> simp

/-- C9: for `POST /invoke` the output format is fixed by the tool name: the
response, state, and effects are unchanged under any modification of the
body's `output_format` field, and the output-format validation branch of
`doExport` can never be the failure for these two tools. -/
theorem C9_output_format_fixed_by_tool (cfg : Config) (o : Oracle)
    (s : ServerState) (args args2 : ExportArgs)
    (hin : args2.input_format = args.input_format)
    (hc : args2.content = args.content) :
    handle cfg o s (.invoke (some "convert_to_pdf") args2) =
      handle cfg o s (.invoke (some "convert_to_pdf") args) ∧
    handle cfg o s (.invoke (some "convert_to_docx") args2) =
      handle cfg o s (.invoke (some "convert_to_docx") args) ∧
    (doExport cfg o (invokeArgs "pdf" args) s).1 ≠ .error .badOutput ∧
    (doExport cfg o (invokeArgs "docx" args) s).1 ≠ .error .badOutput := by
  have hpdf : invokeArgs "pdf" args2 = invokeArgs "pdf" args := by
    simp [invokeArgs, hin, hc]
  have hdocx : invokeArgs "docx" args2 = invokeArgs "docx" args := by
    simp [invokeArgs, hin, hc]
  refine ⟨by simp [handle, hpdf], by simp [handle, hdocx], ?_, ?_⟩
  · exact doExport_ne_badOutput cfg o (invokeArgs "pdf" args) s rfl
  · exact doExport_ne_badOutput cfg o (invokeArgs "docx" args) s rfl

/-- C9 witness: supplying `output_format = "docx"` to `convert_to_pdf`
changes nothing relative to supplying no output format at all, and neither
tool can hit the output-format validation failure. -/
theorem C9_output_format_fixed_by_tool_witness :
    handle cfg0 o0 s0 (.invoke (some "convert_to_pdf")
      { input_format := some "markdown", output_format := some "docx",
        content := some "# Hi" }) =
      handle cfg0 o0 s0 (.invoke (some "convert_to_pdf")
        { input_format := some "markdown", output_format := none,
          content := some "# Hi" }) ∧
    handle cfg0 o0 s0 (.invoke (some "convert_to_docx")
      { input_format := some "markdown", output_format := some "docx",
        content := some "# Hi" }) =
      handle cfg0 o0 s0 (.invoke (some "convert_to_docx")
        { input_format := some "markdown", output_format := none,
          content := some "# Hi" }) ∧
    (doExport cfg0 o0 (invokeArgs "pdf"
      { input_format := some "markdown", output_format := none,
        content := some "# Hi" }) s0).1 ≠ .error .badOutput ∧
    (doExport cfg0 o0 (invokeArgs "docx"
      { input_format := some "markdown", output_format := none,
        content := some "# Hi" }) s0).1 ≠ .error .badOutput :=
  C9_output_format_fixed_by_tool cfg0 o0 s0
    { input_format := some "markdown", output_format := none,
      content := some "# Hi" }
    { input_format := some "markdown", output_format := some "docx",
      content := some "# Hi" } rfl rfl

/-- C10: the download route uses the last path segment of the request only
as a key of the in-memory index: when the segment is not a key (including
any path-traversal string) it answers 404 with no filesystem access at
all, and when it is a key the streamed path is exactly the `path` field
the store recorded for that id — never a path derived from the request. -/
theorem C10_download_key_lookup_only (cfg : Config) (o : Oracle)
    (s : ServerState) (p : String) :
    (alistGet s.files (lastSegment p) = none →
      handle cfg o s (.download p) = (.errJson 404 "not found", s, [])) ∧
    (∀ r, alistGet s.files (lastSegment p) = some r →
      handle cfg o s (.download p) =
        (.fileOk r.mime (lastSegment p) (alistGet s.fs r.path), s,
          [.fsRead r.path])) := by
  constructor
  · intro h
    simp [handle, h]
  · intro r h
    simp [handle, h]

/-- C10 witness: a traversal-style pathname misses the index and answers
404 without touching the filesystem, while the stored id streams exactly
the recorded path. -/
theorem C10_download_key_lookup_only_witness :
    handle cfg0 o0 s1 (.download "/download/../../etc/passwd") =
      (.errJson 404 "not found", s1, []) ∧
    handle cfg0 o0 s1 (.download "/download/id1.pdf") =
      (.fileOk "application/pdf" "id1.pdf" (some [1, 2, 3]), s1,
        [.fsRead "/tmp/exports/id1.pdf"]) := by
  constructor
  · exact (C10_download_key_lookup_only cfg0 o0 s1
      "/download/../../etc/passwd").1 (by decide)
  · have h := (C10_download_key_lookup_only cfg0 o0 s1 "/download/id1.pdf").2
      { path := "/tmp/exports/id1.pdf", mime := "application/pdf", t := 5 }
      (by decide)
    simpa [s1, lastSegment, splitChar, alistGet] using h

/-- C8 witness: downloading a stored id leaves the one-artifact store
intact, logs no write or unlink, and repeats identically. -/
theorem C8_download_is_pure_witness :
    (handle cfg0 o0 s1 (.download "/download/id1.pdf")).2.1 = s1 ∧
    (∀ e ∈ (handle cfg0 o0 s1 (.download "/download/id1.pdf")).2.2,
      ∀ q, e ≠ Effect.fsWrite q ∧ e ≠ Effect.fsUnlink q) ∧
    handle cfg0 o0 (handle cfg0 o0 s1 (.download "/download/id1.pdf")).2.1
        (.download "/download/id1.pdf") =
      handle cfg0 o0 s1 (.download "/download/id1.pdf") :=
  C8_download_is_pure cfg0 o0 s1 "/download/id1.pdf"

/-! Further association-list lemmas used by the reaper claim. -/

theorem alistGet_mem {α : Type} (l : List (String × α)) (k : String) (v : α)
    (h : alistGet l k = some v) : (k, v) ∈ l := by
  induction l with
  | nil => simp [alistGet] at h
  | cons kv rest ih =>
    obtain ⟨k1, v1⟩ := kv
    by_cases hk : k1 = k
    · subst hk
      have : v1 = v := by simpa [alistGet] using h
      subst this
      exact List.mem_cons_self _ _
    · simp only [alistGet, if_neg hk] at h
      exact List.mem_cons_of_mem _ (ih h)

theorem alistGet_filter_key_true {α : Type} (l : List (String × α))
    (p : String × α → Bool) (k : String) (h : ∀ v, p (k, v) = true) :
    alistGet (l.filter p) k = alistGet l k := by
  induction l with
  | nil => rfl
  | cons kv rest ih =>
    obtain ⟨k1, v1⟩ := kv
    by_cases hk : k1 = k
    · subst hk
      simp [List.filter, h v1, alistGet, ih]
    · by_cases hpv : p (k1, v1) <;> simp [List.filter, hpv, alistGet, hk, ih]

theorem alistGet_of_mem_nodup {α : Type} (l : List (String × α)) (k : String)
    (v : α) (hnd : keysNodup l) (h : (k, v) ∈ l) : alistGet l k = some v := by
  induction l with
  | nil => cases h
  | cons kv rest ih =>
    obtain ⟨k1, v1⟩ := kv
    have hpair := List.nodup_cons.mp
      (show (k1 :: rest.map Prod.fst).Nodup from hnd)
    rcases List.mem_cons.mp h with h0 | h0
    · cases h0
      simp [alistGet]
    · have hk : k1 ≠ k := by
        intro e
        subst e
        exact hpair.1 (List.mem_map.mpr ⟨(k1, v), h0, rfl⟩)
      simp only [alistGet, if_neg hk]
      exact ih hpair.2 h0

/-- C6: one reaper scan at time `now` behaves exactly by age against the
15-minute window: (1) an entry created at `t` with `now ≤ t + window`
survives the scan unchanged, so the artifact is retrievable at any time
up to `t + window`; (2) once its age exceeds the window, a scan removes
both its index entry and its backing bytes; (3) the scan deletes nothing
else — every surviving entry was present before with age within the
window; (4) the backing bytes of a surviving entry are untouched provided
no expired entry shares its path. -/
theorem C6_reaper_evicts_exactly_expired (now : Nat) (s : ServerState)
    (hnd : keysNodup s.files) :
    (∀ id r, alistGet s.files id = some r → now ≤ r.t + RETENTION_MS →
      alistGet (cleanup now s).files id = some r) ∧
    (∀ id r, alistGet s.files id = some r → r.t + RETENTION_MS < now →
      alistGet (cleanup now s).files id = none ∧
      alistGet (cleanup now s).fs r.path = none) ∧
    (∀ id r, alistGet (cleanup now s).files id = some r →
      alistGet s.files id = some r ∧ now ≤ r.t + RETENTION_MS) ∧
    (∀ id r, alistGet s.files id = some r → now ≤ r.t + RETENTION_MS →
      (∀ id2 r2, alistGet s.files id2 = some r2 →
        now - r2.t > RETENTION_MS → r2.path ≠ r.path) →
      alistGet (cleanup now s).fs r.path = alistGet s.fs r.path) := by
  refine ⟨?_, ?_, ?_, ?_⟩
  · intro id r h hage
    exact alistGet_filter_pos s.files _ id r h (by simp; omega)
  · intro id r h hage
    constructor
    · exact alistGet_filter_neg s.files _ id r hnd h (by simp; omega)
    · apply alistGet_filter_key
      intro v
      have hmem : (id, r) ∈ s.files := alistGet_mem s.files id r h
      have hany : s.files.any (fun kv =>
          decide (now - kv.2.t > RETENTION_MS) && decide (kv.2.path = r.path))
          = true := by
        rw [List.any_eq_true]
        exact ⟨(id, r), hmem, by simp; omega⟩
      simp [hany]
  · intro id r h
    cases h0 : alistGet s.files id with
    | none =>
      rw [show (cleanup now s).files =
          s.files.filter (fun kv => !decide (now - kv.2.t > RETENTION_MS))
          from rfl] at h
      rw [alistGet_filter_of_none s.files _ id h0] at h
      cases h
    | some r0 =>
      by_cases hage : now - r0.t > RETENTION_MS
      · have := alistGet_filter_neg s.files
          (fun kv => !decide (now - kv.2.t > RETENTION_MS)) id r0 hnd h0
          (by simp [hage])
        rw [show (cleanup now s).files =
            s.files.filter (fun kv => !decide (now - kv.2.t > RETENTION_MS))
            from rfl] at h
        rw [this] at h
        cases h
      · have := alistGet_filter_pos s.files
          (fun kv => !decide (now - kv.2.t > RETENTION_MS)) id r0 h0
          (by simp [hage])
        rw [show (cleanup now s).files =
            s.files.filter (fun kv => !decide (now - kv.2.t > RETENTION_MS))
            from rfl] at h
        rw [this] at h
        injection h with hr
        subst hr
        exact ⟨rfl, by omega⟩
  · intro id r h hage hpaths
    apply alistGet_filter_key_true
    intro v
    have hall : s.files.any (fun kv =>
        decide (now - kv.2.t > RETENTION_MS) && decide (kv.2.path = r.path))
        = false := by
      rw [List.any_eq_false]
      intro x hx
      obtain ⟨id2, r2⟩ := x
      simp only [Bool.and_eq_true, decide_eq_true_eq, not_and]
      intro hexp hpath
      exact hpaths id2 r2 (alistGet_of_mem_nodup s.files id2 r2 hnd hx)
        hexp hpath
    simp [hall]

/-- A two-entry store, one of which is past the retention window at the
scan instant used in the C6 witness. -/
def s6 : ServerState :=
  { files := [("a.pdf",
      { path := "/tmp/exports/a.pdf", mime := "application/pdf", t := 0 }),
      ("b.pdf",
      { path := "/tmp/exports/b.pdf", mime := "application/pdf", t := 500000 })],
    fs := [("/tmp/exports/a.pdf", [1]), ("/tmp/exports/b.pdf", [2])] }

/-- C6 witness: scanning at 950000 ms evicts the entry aged 950000 ms
(window 900000 ms) together with its bytes and keeps the entry aged
450000 ms with its bytes untouched. -/
theorem C6_reaper_evicts_exactly_expired_witness :
    alistGet (cleanup 950000 s6).files "b.pdf" =
      some { path := "/tmp/exports/b.pdf", mime := "application/pdf",
             t := 500000 } ∧
    (alistGet (cleanup 950000 s6).files "a.pdf" = none ∧
      alistGet (cleanup 950000 s6).fs "/tmp/exports/a.pdf" = none) ∧
    alistGet (cleanup 950000 s6).fs "/tmp/exports/b.pdf" =
      alistGet s6.fs "/tmp/exports/b.pdf" := by
  have h := C6_reaper_evicts_exactly_expired 950000 s6
    (by unfold keysNodup; decide)
  refine ⟨h.1 "b.pdf"
      { path := "/tmp/exports/b.pdf", mime := "application/pdf", t := 500000 }
      (by decide) (by decide),
    h.2.1 "a.pdf"
      { path := "/tmp/exports/a.pdf", mime := "application/pdf", t := 0 }
      (by decide) (by decide),
    h.2.2.2 "b.pdf"
      { path := "/tmp/exports/b.pdf", mime := "application/pdf", t := 500000 }
      (by decide) (by decide) ?_⟩
  intro id2 r2 hget hexp
  have hmem := alistGet_mem s6.files id2 r2 hget
  simp only [s6, List.mem_cons, List.mem_singleton, List.not_mem_nil,
    or_false] at hmem
  rcases hmem with hmem | hmem
  · cases hmem
    decide
  · cases hmem
    exact absurd hexp (by decide)

/-- The store invariant of the spec: every id visible in the index refers
to backing bytes that are fully present on disk. -/
def storeInv (s : ServerState) : Prop :=
  ∀ id r, alistGet s.files id = some r → ∃ bs, alistGet s.fs r.path = some bs

/-- On the success path `doExport` returns exactly the link, the state with
the bytes written and the record inserted, and the two logged effects. -/
theorem doExport_success (cfg : Config) (o : Oracle) (args : ExportArgs)
    (s : ServerState)
    (hin : jsIncludes ["markdown", "html"] args.input_format = true)
    (houtB : jsIncludes ["pdf", "docx"] args.output_format = true)
    (hcontent : isNonEmptyString args.content = true)
    (hok : o.resp.ok = true) :
    doExport cfg o args s =
      (.ok (exportLink cfg o args), exportFinalState o args s,
        [.backendCall args, .fsWrite (exportFpath o args)]) := by
  simp [doExport, hin, houtB, hcontent, hok]

/-- C7: `doExport` makes the new artifact visible only after its bytes are
fully on disk, and the link only after both: the store invariant holds in
the intermediate state (bytes written, index untouched) and in the final
state; key uniqueness is preserved; the fresh id maps to the inserted
record whose path holds exactly the backend bytes; every other id is
untouched; and a returned link implies the final state was reached. -/
theorem C7_put_ordering_invariant (cfg : Config) (o : Oracle)
    (args : ExportArgs) (s : ServerState)
    (hinv : storeInv s) (hnd : keysNodup s.files)
    (_hfresh : alistGet s.files (exportFname o args) = none) :
    storeInv (exportStateAfterWrite o args s) ∧
    storeInv (exportFinalState o args s) ∧
    keysNodup (exportFinalState o args s).files ∧
    alistGet (exportFinalState o args s).files (exportFname o args) =
      some (exportRec o args) ∧
    alistGet (exportFinalState o args s).fs (exportRec o args).path =
      some o.resp.bytes ∧
    (∀ id, id ≠ exportFname o args →
      alistGet (exportFinalState o args s).files id = alistGet s.files id) ∧
    (∀ link s2 effs, doExport cfg o args s = (.ok link, s2, effs) →
      link = exportLink cfg o args ∧ s2 = exportFinalState o args s) := by
  have hfsLookup : ∀ (r : FileRec), (∃ bs, alistGet s.fs r.path = some bs) →
      ∃ bs, alistGet (alistSet s.fs (exportFpath o args) o.resp.bytes) r.path
        = some bs := by
    intro r ⟨bs, hbs⟩
    by_cases hp : exportFpath o args = r.path
    · exact ⟨o.resp.bytes, hp ▸ alistGet_set_self s.fs (exportFpath o args) _⟩
    · exact ⟨bs, by rw [alistGet_set_ne s.fs _ _ _ hp]; exact hbs⟩
  refine ⟨?_, ?_, ?_, ?_, ?_, ?_, ?_⟩
  · intro id r hget
    exact hfsLookup r (hinv id r hget)
  · intro id r hget
    by_cases hid : exportFname o args = id
    · rw [← hid, show (exportFinalState o args s).files =
        alistSet s.files (exportFname o args) (exportRec o args) from rfl,
        alistGet_set_self] at hget
      injection hget with hr
      subst hr
      exact ⟨o.resp.bytes,
        alistGet_set_self s.fs (exportFpath o args) o.resp.bytes⟩
    · rw [show (exportFinalState o args s).files =
        alistSet s.files (exportFname o args) (exportRec o args) from rfl,
        alistGet_set_ne s.files _ _ _ hid] at hget
      exact hfsLookup r (hinv id r hget)
  · exact keysNodup_alistSet s.files _ _ hnd
  · exact alistGet_set_self s.files _ _
  · exact alistGet_set_self s.fs _ _
  · intro id hne
    exact alistGet_set_ne s.files _ _ _ (fun e => hne e.symm)
  · intro link s2 effs hd
    unfold doExport at hd
    split at hd
    · simp at hd
    · split at hd
      · simp at hd
      · split at hd
        · simp at hd
        · split at hd
          · simp at hd
          · simp only [Prod.mk.injEq] at hd
            obtain ⟨hl, hs, _⟩ := hd
            injection hl with hl
            exact ⟨hl.symm, hs.symm⟩

/-- C7 witness: a successful export into the empty store satisfies every
part of the ordering invariant. -/
theorem C7_put_ordering_invariant_witness :
    storeInv (exportStateAfterWrite o0 argsOk s0) ∧
    storeInv (exportFinalState o0 argsOk s0) ∧
    keysNodup (exportFinalState o0 argsOk s0).files ∧
    alistGet (exportFinalState o0 argsOk s0).files (exportFname o0 argsOk) =
      some (exportRec o0 argsOk) ∧
    alistGet (exportFinalState o0 argsOk s0).fs (exportRec o0 argsOk).path =
      some o0.resp.bytes ∧
    (∀ id, id ≠ exportFname o0 argsOk →
      alistGet (exportFinalState o0 argsOk s0).files id =
        alistGet s0.files id) ∧
    (∀ link s2 effs, doExport cfg0 o0 argsOk s0 = (.ok link, s2, effs) →
      link = exportLink cfg0 o0 argsOk ∧
      s2 = exportFinalState o0 argsOk s0) :=
  C7_put_ordering_invariant cfg0 o0 argsOk s0
    (by intro id r hget; simp [s0, alistGet] at hget)
    (by unfold keysNodup; decide) (by decide)

/-- C1: for a valid request where the backend succeeds, `doExport` stores
exactly the backend bytes under the generated id, returns a link ending in
`/download/<id>`, and a `GET /download/<id>` against the resulting state
(before any reaper run) streams exactly those bytes with the MIME type
matching the output format. The id generated by `fileId` is assumed fresh
and slash-free, which models its construction from crypto randomness. -/
theorem C1_convert_store_download (cfg : Config) (o o2 : Oracle)
    (s : ServerState) (args : ExportArgs)
    (hin : jsIncludes ["markdown", "html"] args.input_format = true)
    (hout : args.output_format = some "pdf" ∨ args.output_format = some "docx")
    (hcontent : isNonEmptyString args.content = true)
    (hok : o.resp.ok = true)
    (_hfresh : alistGet s.files (exportFname o args) = none)
    (hslash : ('/' : Char) ∉ o.rawId.data) :
    doExport cfg o args s =
      (.ok (cfg.PUBLIC_BASE_URL ++ "/download/" ++ exportFname o args),
        exportFinalState o args s,
        [.backendCall args, .fsWrite (exportFpath o args)]) ∧
    alistGet (exportFinalState o args s).files (exportFname o args) =
      some (exportRec o args) ∧
    alistGet (exportFinalState o args s).fs (exportRec o args).path =
      some o.resp.bytes ∧
    (args.output_format = some "pdf" →
      (exportRec o args).mime = "application/pdf") ∧
    (args.output_format = some "docx" →
      (exportRec o args).mime =
        "application/vnd.openxmlformats-officedocument.wordprocessingml.document") ∧
    handle cfg o2 (exportFinalState o args s)
        (.download ("/download/" ++ exportFname o args)) =
      (.fileOk (exportRec o args).mime (exportFname o args)
          (some o.resp.bytes),
        exportFinalState o args s, [.fsRead (exportRec o args).path]) := by
  have houtB : jsIncludes ["pdf", "docx"] args.output_format = true := by
    rcases hout with h | h <;> simp [jsIncludes, h]
  have hnofs : ('/' : Char) ∉ (exportFname o args).data := by
    have hdata : (exportFname o args).data =
        o.rawId.data ++ ('.' :: (exportExt args).data) := by
      show (o.rawId ++ "." ++ exportExt args).data = _
      rw [String.data_append, String.data_append]
      simp
    rw [hdata]
    intro hmem
    rcases List.mem_append.mp hmem with h | h
    · exact hslash h
    · rcases List.mem_cons.mp h with h | h
      · exact absurd h (by decide)
      · have hext : ('/' : Char) ∉ (exportExt args).data := by
          unfold exportExt
          split <;> decide
        exact hext h
  have hls : lastSegment ("/download/" ++ exportFname o args) =
      exportFname o args := by
    rw [show ("/download/" : String) = "/download" ++ "/" from rfl]
    exact lastSegment_concat "/download" (exportFname o args) hnofs
  have hgetFiles : alistGet (exportFinalState o args s).files
      (exportFname o args) = some (exportRec o args) :=
    alistGet_set_self s.files _ _
  have hgetFs : alistGet (exportFinalState o args s).fs
      (exportRec o args).path = some o.resp.bytes :=
    alistGet_set_self s.fs _ _
  refine ⟨doExport_success cfg o args s hin houtB hcontent hok, hgetFiles,
    hgetFs, ?_, ?_, ?_⟩
  · intro h
    simp [exportRec, exportMime, pdfMime, h]
  · intro h
    simp [exportRec, exportMime, docxMime, h]
  · simp [handle, hls, hgetFiles, hgetFs]

/-- C1 witness: converting "# Hi" from markdown to pdf against a 3-byte
backend stub stores those 3 bytes and the follow-up download returns them
with `Content-Type: application/pdf`. -/
theorem C1_convert_store_download_witness :
    doExport cfg0 o0 argsOk s0 =
      (.ok (cfg0.PUBLIC_BASE_URL ++ "/download/" ++ exportFname o0 argsOk),
        exportFinalState o0 argsOk s0,
        [.backendCall argsOk, .fsWrite (exportFpath o0 argsOk)]) ∧
    alistGet (exportFinalState o0 argsOk s0).files (exportFname o0 argsOk) =
      some (exportRec o0 argsOk) ∧
    alistGet (exportFinalState o0 argsOk s0).fs (exportRec o0 argsOk).path =
      some o0.resp.bytes ∧
    (argsOk.output_format = some "pdf" →
      (exportRec o0 argsOk).mime = "application/pdf") ∧
    (argsOk.output_format = some "docx" →
      (exportRec o0 argsOk).mime =
        "application/vnd.openxmlformats-officedocument.wordprocessingml.document") ∧
    handle cfg0 o0 (exportFinalState o0 argsOk s0)
        (.download ("/download/" ++ exportFname o0 argsOk)) =
      (.fileOk (exportRec o0 argsOk).mime (exportFname o0 argsOk)
          (some o0.resp.bytes),
        exportFinalState o0 argsOk s0, [.fsRead (exportRec o0 argsOk).path]) :=
  C1_convert_store_download cfg0 o0 o0 s0 argsOk (by decide)
    (Or.inl (by decide)) (by decide) (by decide) (by decide) (by decide)

/-- A configuration in which PUBLIC_BASE_URL is unset (empty string), the
situation mcp.mjs only warns about at startup. -/
def cfgNoBase : Config :=
  { PANDOC_BASE := "http://pandoc.internal",
    PANDOC_API_KEY := "",
    PUBLIC_BASE_URL := "" }

/-- C3 counterexample: with PUBLIC_BASE_URL unset, a valid invocation does
not fail with any configuration error — it succeeds and returns the broken
root-relative link built from the empty base. -/
theorem C3_counterexample_returns_broken_link :
    cfgNoBase.PUBLIC_BASE_URL = "" ∧
    doExport cfgNoBase o0 argsOk s0 =
      (.ok ("/download/" ++ exportFname o0 argsOk),
        exportFinalState o0 argsOk s0,
        [.backendCall argsOk, .fsWrite (exportFpath o0 argsOk)]) := by
  constructor
  · rfl
  · rfl

/-- C3 amended: whenever PUBLIC_BASE_URL is empty, a valid invocation with
a successful backend still succeeds; the returned link is the
root-relative `/download/<id>` obtained by prefixing the empty base, and
the artifact is stored as usual. No configuration error exists. -/
theorem C3_amended_empty_base_still_links (cfg : Config) (o : Oracle)
    (s : ServerState) (args : ExportArgs)
    (hbase : cfg.PUBLIC_BASE_URL = "")
    (hin : jsIncludes ["markdown", "html"] args.input_format = true)
    (houtB : jsIncludes ["pdf", "docx"] args.output_format = true)
    (hcontent : isNonEmptyString args.content = true)
    (hok : o.resp.ok = true) :
    doExport cfg o args s =
      (.ok ("/download/" ++ exportFname o args), exportFinalState o args s,
        [.backendCall args, .fsWrite (exportFpath o args)]) := by
  have hlink : exportLink cfg o args = "/download/" ++ exportFname o args := by
    unfold exportLink
    rw [hbase]
    rw [show (("" : String) ++ "/download/") = "/download/" from rfl]
  rw [← hlink]
  exact doExport_success cfg o args s hin houtB hcontent hok

/-- C3 amended witness: the concrete broken-link run. -/
theorem C3_amended_empty_base_still_links_witness :
    doExport cfgNoBase o0 argsOk s0 =
      (.ok ("/download/" ++ exportFname o0 argsOk),
        exportFinalState o0 argsOk s0,
        [.backendCall argsOk, .fsWrite (exportFpath o0 argsOk)]) :=
  C3_amended_empty_base_still_links cfgNoBase o0 s0 argsOk rfl
    (by decide) (by decide) (by decide) (by decide)

/-- C4 counterexample: an invocation rejected by the local validation check
(`input_format = "latex"`) is answered with HTTP 500, not 400 — the
catch-all on mcp.mjs line 197 maps every thrown error to 500. -/
theorem C4_counterexample_validation_is_500 :
    handle cfg0 o0 s0 (.invoke (some "convert_to_pdf")
      { input_format := some "latex", output_format := none,
        content := some "x" }) =
      (.errJson 500 (errMsg .badInput), s0, []) ∧
    ∀ m, (handle cfg0 o0 s0 (.invoke (some "convert_to_pdf")
      { input_format := some "latex", output_format := none,
        content := some "x" })).1 ≠ .errJson 400 m := by
  constructor
  · decide
  · intro m h
    have h0 : (handle cfg0 o0 s0 (.invoke (some "convert_to_pdf")
        { input_format := some "latex", output_format := none,
          content := some "x" })).1 = .errJson 500 (errMsg .badInput) := by
      decide
    rw [h0] at h
    simp at h

/-- C4 amended: every failure response of the handler is a JSON body with
an `error` field; its status is 404 for an unknown tool or an absent
artifact (with those exact messages) and 500 for every error thrown inside
the handler — validation, upstream and all else; in particular a
validation-rejected invocation yields 500, never 400. -/
theorem C4_amended_statuses (cfg : Config) (o : Oracle) (s : ServerState)
    (req : Request) :
    (∀ st m, (handle cfg o s req).1 = .errJson st m →
      (st = 404 ∧ (m = "unknown tool" ∨ m = "not found")) ∨
      (st = 500 ∧ ∃ e : ExportErr, m = errMsg e)) ∧
    (∀ args, jsIncludes ["markdown", "html"] args.input_format = false →
      (handle cfg o s (.invoke (some "convert_to_pdf") args)).1 =
        .errJson 500 (errMsg .badInput)) := by
  constructor
  · intro st m h
    cases req with
    | healthz => simp [handle] at h
    | sse => simp [handle] at h
    | invoke name args =>
      by_cases h1 : name = some "convert_to_pdf"
      · rcases hres : doExport cfg o (invokeArgs "pdf" args) s with ⟨res, s2, effs⟩
        cases res with
        | ok link => simp [handle, h1, hres] at h
        | error e =>
          simp [handle, h1, hres] at h
          exact Or.inr ⟨h.1.symm, e, h.2.symm⟩
      · by_cases h2 : name = some "convert_to_docx"
        · rcases hres : doExport cfg o (invokeArgs "docx" args) s with ⟨res, s2, effs⟩
          cases res with
          | ok link => simp [handle, h1, h2, hres] at h
          | error e =>
            simp [handle, h1, h2, hres] at h
            exact Or.inr ⟨h.1.symm, e, h.2.symm⟩
        · simp [handle, h1, h2] at h
          exact Or.inl ⟨h.1.symm, Or.inl h.2.symm⟩
    | exportDirect args =>
      rcases hres : doExport cfg o args s with ⟨res, s2, effs⟩
      cases res with
      | ok link => simp [handle, hres] at h
      | error e =>
        simp [handle, hres] at h
        exact Or.inr ⟨h.1.symm, e, h.2.symm⟩
    | download p =>
      cases hget : alistGet s.files (lastSegment p) with
      | none =>
        simp [handle, hget] at h
        exact Or.inl ⟨h.1.symm, Or.inr h.2.symm⟩
      | some r => simp [handle, hget] at h
    | other =>
      simp [handle] at h
      exact Or.inl ⟨h.1.symm, Or.inr h.2.symm⟩
  · intro args hbad
    have hd : doExport cfg o (invokeArgs "pdf" args) s =
        (.error .badInput, s, []) := by
      simp [doExport, invokeArgs, hbad]
    simp [handle, hd]

/-- C4 amended witness: the fallthrough 404 is classified, and the
concrete validation rejection is a 500. -/
theorem C4_amended_statuses_witness :
    (((404 : Nat) = 404 ∧
        (("not found" : String) = "unknown tool" ∨
          ("not found" : String) = "not found")) ∨
      ((404 : Nat) = 500 ∧ ∃ e : ExportErr, ("not found" : String) = errMsg e)) ∧
    (handle cfg0 o0 s0 (.invoke (some "convert_to_pdf")
      { input_format := some "latex", output_format := none,
        content := some "x" })).1 = .errJson 500 (errMsg .badInput) :=
  ⟨(C4_amended_statuses cfg0 o0 s0 .other).1 404 "not found" (by decide),
    (C4_amended_statuses cfg0 o0 s0 .other).2
      { input_format := some "latex", output_format := none,
        content := some "x" } (by decide)⟩
